import Mathlib

/-!
Shallow embedding of the attention module `model/attention.py` of the
entity-aware relation-classification repository, together with proofs of the
specified properties of its attention primitives.

Tensors are embedded as curried functions over `Fin`-indexed axes with real
entries; `tf.nn.softmax`, `tf.layers.dense`, `tf.gather_nd`, the head
split/concat of the multi-head blocks, the numpy relative-distance table and
`layer_norm` are each translated directly from the source.  Dropout is modelled
in inference mode (`tf.layers.dropout` with `training=False` is the identity),
which is the mode in which every property below is stated.
-/

namespace EARC

/-! ### The relative-distance table (`relative_multihead_attention`, lines 288-299)

These definitions are over `ℕ`/`List ℕ` and mirror the numpy code exactly:
`dist = np.full(seq_len, 2*clip_k+1); dist[0:2*clip_k] = np.arange(1, 2*clip_k+1)`,
then one shifted copy of that row per query position.  numpy slice assignment
with overlapping source/destination copies the source first, which is what the
`List.drop`/`List.take` forms below compute. -/

/-- The base row: `np.full(seq_len, 2*clip_k+1)` with `dist[0:2*clip_k] = np.arange(1, 2*clip_k+1)`. -/
def dist_base (ck T : ℕ) : List ℕ :=
  (List.range T).map (fun j => if j < 2 * ck then j + 1 else 2 * ck + 1)

/-- `shift(arr, n)`: for `n < 0`, `arr[:n] = arr[-n:]; arr[n:] = 2*clip_k+1`;
for `n > 0`, `arr[n:] = arr[:-n]; arr[:n] = 1`; unchanged for `n = 0`. -/
def shift (ck : ℕ) (arr : List ℕ) (n : ℤ) : List ℕ :=
  if n < 0 then arr.drop (-n).toNat ++ List.replicate (-n).toNat (2 * ck + 1)
  else if 0 < n then List.replicate n.toNat 1 ++ arr.take (arr.length - n.toNat)
  else arr

/-- `np.array([shift(dist.copy(), i) for i in range(-clip_k, seq_len-clip_k)])`:
the (seq_len, seq_len) relative-distance bucket table. -/
def dist_table (ck T : ℕ) : List (List ℕ) :=
  (List.range T).map (fun (i : ℕ) => shift ck (dist_base ck T) ((i : ℤ) - ck))

/-- Entry `(i, j)` of the distance table. -/
def dist_entry (ck T i j : ℕ) : ℕ := ((dist_table ck T).getD i []).getD j 0

/-- `dist = dist[:tf.shape(Q_)[1], :tf.shape(Q_)[1]]` (line 299): the per-call
slice of the precomputed table down to the first `q` rows and columns. -/
def dist_sliced (ck T q : ℕ) : List (List ℕ) :=
  ((dist_table ck T).take q).map (fun row => row.take q)

/-- Entry `(i, j)` of the sliced distance table. -/
def dist_sliced_entry (ck T q i j : ℕ) : ℕ := ((dist_sliced ck T q).getD i []).getD j 0

/-! ### Real-valued building blocks -/

/-- `tf.nn.relu`. -/
noncomputable def relu (x : ℝ) : ℝ := max x 0

/-- `tf.layers.dense(x, U, activation=tf.nn.relu)` applied to a rank-3 tensor:
a per-position affine map followed by ReLU. -/
noncomputable def dense_relu {N T C U : ℕ} (x : Fin N → Fin T → Fin C → ℝ)
    (W : Fin C → Fin U → ℝ) (b : Fin U → ℝ) : Fin N → Fin T → Fin U → ℝ :=
  fun n t u => relu ((∑ c, x n t c * W c u) + b u)

/-- `tf.nn.softmax` along one axis (the default, last, axis of the tensor it is
applied to in the source). -/
noncomputable def softmax {T : ℕ} (x : Fin T → ℝ) : Fin T → ℝ :=
  fun k => Real.exp (x k) / ∑ j, Real.exp (x j)

/-- `tf.concat(tf.split(x, num_heads, axis=2), axis=0)`: head `hd` of the
channel split views channels `[hd*dk, (hd+1)*dk)`. -/
def head_split {nh N T dk : ℕ} (x : Fin N → Fin T → Fin (nh * dk) → ℝ) :
    Fin nh → Fin N → Fin T → Fin dk → ℝ :=
  fun hd n t d => x n t ⟨hd.1 * dk + d.1, by
    calc hd.1 * dk + d.1 < hd.1 * dk + dk := by omega
    _ = (hd.1 + 1) * dk := by ring
    _ ≤ nh * dk := Nat.mul_le_mul_right dk hd.2⟩

/-- `tf.reduce_sum(x, axis=-1)` at one position: the channel sum used by the
key/query masks. -/
noncomputable def chan_sum {N T C : ℕ} (x : Fin N → Fin T → Fin C → ℝ)
    (n : Fin N) (t : Fin T) : ℝ :=
  ∑ c, x n t c

/-- The masking constant `-2 ** 32 + 1` (the `paddings` tensor entries). -/
noncomputable def paddings : ℝ := -(2 : ℝ) ^ 32 + 1

/-! ### `layer_norm` (lines 402-429) -/

/-- First component of `tf.nn.moments(inputs, [-1])`: the mean over the last axis. -/
noncomputable def moments_mean {C : ℕ} (x : Fin C → ℝ) : ℝ := (∑ c, x c) / C

/-- Second component of `tf.nn.moments(inputs, [-1])`: the variance (mean squared
deviation) over the last axis. -/
noncomputable def moments_var {C : ℕ} (x : Fin C → ℝ) : ℝ :=
  (∑ c, (x c - moments_mean x) ^ 2) / C

/-- `layer_norm` on a rank-3 input (every call site in the source is rank 3):
`gamma * (inputs - mean) / ((variance + epsilon) ** 0.5) + beta`, with the
moments taken over the last axis only.  `** 0.5` is the real power `rpow`. -/
noncomputable def layer_norm {N T C : ℕ} (gamma beta : Fin C → ℝ) (epsilon : ℝ)
    (x : Fin N → Fin T → Fin C → ℝ) : Fin N → Fin T → Fin C → ℝ :=
  fun n t c =>
    gamma c * ((x n t c - moments_mean (x n t)) / (moments_var (x n t) + epsilon) ^ ((0.5 : ℝ)))
      + beta c

/-! ### Additive attention, variant A (`attention`, lines 51-81)

Batch-major single-tensor input (`time_major=False`, non-tuple `inputs`); the
bidirectional tuple case concatenates channels upstream and is covered by the
same tensor shape. -/

/-- `v = tanh(tensordot(inputs, w_omega, 1) + b_omega)`. -/
noncomputable def attention_v {B T D A : ℕ} (inputs : Fin B → Fin T → Fin D → ℝ)
    (w_omega : Fin D → Fin A → ℝ) (b_omega : Fin A → ℝ) : Fin B → Fin T → Fin A → ℝ :=
  fun b t a => Real.tanh ((∑ d, inputs b t d * w_omega d a) + b_omega a)

/-- `vu = tensordot(v, u_omega, 1)`: one score per (batch, time). -/
noncomputable def attention_vu {B T D A : ℕ} (inputs : Fin B → Fin T → Fin D → ℝ)
    (w_omega : Fin D → Fin A → ℝ) (b_omega u_omega : Fin A → ℝ) : Fin B → Fin T → ℝ :=
  fun b t => ∑ a, attention_v inputs w_omega b_omega b t a * u_omega a

/-- `alphas = tf.nn.softmax(vu)`: softmax over the time axis. -/
noncomputable def attention_alphas {B T D A : ℕ} (inputs : Fin B → Fin T → Fin D → ℝ)
    (w_omega : Fin D → Fin A → ℝ) (b_omega u_omega : Fin A → ℝ) : Fin B → Fin T → ℝ :=
  fun b => softmax (attention_vu inputs w_omega b_omega u_omega b)

/-- `output = reduce_sum(inputs * expand_dims(alphas, -1), 1)`: the pooled
vector is the alpha-weighted time sum of the original `inputs`. -/
noncomputable def attention_output {B T D A : ℕ} (inputs : Fin B → Fin T → Fin D → ℝ)
    (w_omega : Fin D → Fin A → ℝ) (b_omega u_omega : Fin A → ℝ) : Fin B → Fin D → ℝ :=
  fun b d => ∑ t, inputs b t d * attention_alphas inputs w_omega b_omega u_omega b t

/-! ### Entity-pair attention (`entity_attention`, lines 104-127) -/

/-- `tf.gather_nd(params, idx)` for a rank-2 index tensor whose rows are
`(batch, time)` pairs over a rank-3 `params`: `out[b] = params[idx[b][0], idx[b][1]]`. -/
noncomputable def gather_nd {B T A : ℕ} (params : Fin B → Fin T → Fin A → ℝ)
    (idx : Fin B → Fin B × Fin T) : Fin B → Fin A → ℝ :=
  fun b => params (idx b).1 (idx b).2

/-- `tf.concat([expand_dims(range(shape(e)[0]), -1), expand_dims(e, -1)], -1)`:
the per-batch `(b, e[b])` index pairs. -/
def entity_idx {B T : ℕ} (e : Fin B → Fin T) : Fin B → Fin B × Fin T := fun b => (b, e b)

/-- `e = tf.concat([expand_dims(e1_h, -1), expand_dims(e2_h, -1)], -1)`:
column 0 is `e1_h`, column 1 is `e2_h`. -/
noncomputable def entity_e {B A : ℕ} (e1h e2h : Fin B → Fin A → ℝ) :
    Fin B → Fin A → Fin 2 → ℝ :=
  fun b a col => if col.1 = 0 then e1h b a else e2h b a

/-- `ve = tf.matmul(attn, e)`: raw scores of shape (batch, time, 2). -/
noncomputable def entity_ve {B T A : ℕ} (attn : Fin B → Fin T → Fin A → ℝ)
    (e : Fin B → Fin A → Fin 2 → ℝ) : Fin B → Fin T → Fin 2 → ℝ :=
  fun b t col => ∑ a, attn b t a * e b a col

/-- `alphas = tf.nn.softmax(ve)`: `tf.nn.softmax` defaults to the last axis, so
the softmax runs over the 2 entity columns at each (batch, time). -/
noncomputable def entity_alphas {B T C A : ℕ} (inputs : Fin B → Fin T → Fin C → ℝ)
    (W : Fin C → Fin A → ℝ) (bW : Fin A → ℝ) (e1 e2 : Fin B → Fin T) :
    Fin B → Fin T → Fin 2 → ℝ :=
  fun b t =>
    let attn := dense_relu inputs W bW
    let e := entity_e (gather_nd attn (entity_idx e1)) (gather_nd attn (entity_idx e2))
    softmax (fun col => entity_ve attn e b t col)

/-- `output = tf.matmul(alphas, tf.transpose(e, [0, 2, 1]))`. -/
noncomputable def entity_output {B T C A : ℕ} (inputs : Fin B → Fin T → Fin C → ℝ)
    (W : Fin C → Fin A → ℝ) (bW : Fin A → ℝ) (e1 e2 : Fin B → Fin T) :
    Fin B → Fin T → Fin A → ℝ :=
  fun b t a =>
    let attn := dense_relu inputs W bW
    let e := entity_e (gather_nd attn (entity_idx e1)) (gather_nd attn (entity_idx e2))
    ∑ col, entity_alphas inputs W bW e1 e2 b t col * e b a col

/-- The returned tensor: `layer_norm(output)`. -/
noncomputable def entity_attention {B T C A : ℕ} (inputs : Fin B → Fin T → Fin C → ℝ)
    (W : Fin C → Fin A → ℝ) (bW : Fin A → ℝ) (e1 e2 : Fin B → Fin T)
    (gamma beta : Fin A → ℝ) (epsilon : ℝ) : Fin B → Fin T → Fin A → ℝ :=
  layer_norm gamma beta epsilon (entity_output inputs W bW e1 e2)

/-! ### Scaled dot-product multi-head attention (`multihead_attention`, lines 156-243) -/

/-- Lines 197-217: the pre-softmax score tensor.  `Q_`/`K_` are the head-split
dense-ReLU projections of `queries`/`keys`; the raw dot product is divided by
`sqrt(head_dim)`, then key positions whose input channel sum is zero are
replaced by the `paddings` constant, then (when `causality`) future keys are
replaced by the same constant. -/
noncomputable def mha_presoftmax {nh N Tq Tk Cq Ck dk : ℕ} (causality : Bool)
    (queries : Fin N → Fin Tq → Fin Cq → ℝ) (keys : Fin N → Fin Tk → Fin Ck → ℝ)
    (WQ : Fin Cq → Fin (nh * dk) → ℝ) (bQ : Fin (nh * dk) → ℝ)
    (WK : Fin Ck → Fin (nh * dk) → ℝ) (bK : Fin (nh * dk) → ℝ) :
    Fin nh → Fin N → Fin Tq → Fin Tk → ℝ :=
  fun hd n q k =>
    let Q_ := head_split (dense_relu queries WQ bQ)
    let K_ := head_split (dense_relu keys WK bK)
    let scaled := (∑ d, Q_ hd n q d * K_ hd n k d) / Real.sqrt (dk : ℝ)
    let masked := if chan_sum keys n k = 0 then paddings else scaled
    if causality = true ∧ (q : ℕ) < (k : ℕ) then paddings else masked

/-- Line 220: `outputs = tf.nn.softmax(outputs)`, over the key axis. -/
noncomputable def mha_alphas {nh N Tq Tk Cq Ck dk : ℕ} (causality : Bool)
    (queries : Fin N → Fin Tq → Fin Cq → ℝ) (keys : Fin N → Fin Tk → Fin Ck → ℝ)
    (WQ : Fin Cq → Fin (nh * dk) → ℝ) (bQ : Fin (nh * dk) → ℝ)
    (WK : Fin Ck → Fin (nh * dk) → ℝ) (bK : Fin (nh * dk) → ℝ) :
    Fin nh → Fin N → Fin Tq → Fin Tk → ℝ :=
  fun hd n q => softmax (fun k => mha_presoftmax causality queries keys WQ bQ WK bK hd n q k)

/-- Lines 223-226: query masking zeroes the weight rows of queries whose input
channel sum is zero. -/
noncomputable def mha_weights {nh N Tq Tk Cq Ck dk : ℕ} (causality : Bool)
    (queries : Fin N → Fin Tq → Fin Cq → ℝ) (keys : Fin N → Fin Tk → Fin Ck → ℝ)
    (WQ : Fin Cq → Fin (nh * dk) → ℝ) (bQ : Fin (nh * dk) → ℝ)
    (WK : Fin Ck → Fin (nh * dk) → ℝ) (bK : Fin (nh * dk) → ℝ) :
    Fin nh → Fin N → Fin Tq → Fin Tk → ℝ :=
  fun hd n q k =>
    mha_alphas causality queries keys WQ bQ WK bK hd n q k *
      (if chan_sum queries n q = 0 then 0 else 1)

/-- Line 232: `outputs = tf.matmul(outputs, V_)` with
`V_ = head_split(dense_relu(keys, WV, bV))` — the value projection is computed
from the `keys` argument (line 188). -/
noncomputable def mha_agg {nh N Tq Tk Cq Ck dk : ℕ} (causality : Bool)
    (queries : Fin N → Fin Tq → Fin Cq → ℝ) (keys : Fin N → Fin Tk → Fin Ck → ℝ)
    (WQ : Fin Cq → Fin (nh * dk) → ℝ) (bQ : Fin (nh * dk) → ℝ)
    (WK : Fin Ck → Fin (nh * dk) → ℝ) (bK : Fin (nh * dk) → ℝ)
    (WV : Fin Ck → Fin (nh * dk) → ℝ) (bV : Fin (nh * dk) → ℝ) :
    Fin nh → Fin N → Fin Tq → Fin dk → ℝ :=
  fun hd n q d =>
    let V_ := head_split (dense_relu keys WV bV)
    ∑ k, mha_weights causality queries keys WQ bQ WK bK hd n q k * V_ hd n k d

/-! ### Relative-position multi-head attention (`relative_multihead_attention`,
lines 246-363).  Every well-formed call is self-attention in time: the sliced
table and the `QaK`/`aV` additions force `T_k = T_q`, so both time axes are
`Tq` below. -/

/-- `tf.nn.embedding_lookup(W2, dist)` over the sliced distance table: entry
`(q, k)` selects row `dist_sliced_entry ck T Tq q k` of the embedding table.
Table entries are at most `2*clip_k+1`, so the out-of-range guard (which models
the lookup failing) is never taken. -/
noncomputable def rel_embed (ck T : ℕ) {Tq dk : ℕ} (W2 : Fin (2 * ck + 2) → Fin dk → ℝ) :
    Fin Tq → Fin Tq → Fin dk → ℝ :=
  fun q k d =>
    if h : dist_sliced_entry ck T Tq q.1 k.1 < 2 * ck + 2 then
      W2 ⟨dist_sliced_entry ck T Tq q.1 k.1, h⟩ d
    else 0

/-- Line 309: `outputs = tf.matmul(Q_, tf.transpose(K_, [0, 2, 1]))`. -/
noncomputable def raw_score {nh N Tq Tk dk : ℕ} (Q_ : Fin nh → Fin N → Fin Tq → Fin dk → ℝ)
    (K_ : Fin nh → Fin N → Fin Tk → Fin dk → ℝ) : Fin nh → Fin N → Fin Tq → Fin Tk → ℝ :=
  fun hd n q k => ∑ d, Q_ hd n q d * K_ hd n k d

/-- Lines 311-313: `QaK[q, hb, k] = sum_d Q_[hb, q, d] * aK[q, k, d]`, the
query-position-conditioned key bias.  The table argument has no head or batch
index: one table serves every head and batch element. -/
noncomputable def rel_bias {nh N Tq dk : ℕ} (Q_ : Fin nh → Fin N → Fin Tq → Fin dk → ℝ)
    (aK : Fin Tq → Fin Tq → Fin dk → ℝ) : Fin nh → Fin N → Fin Tq → Fin Tq → ℝ :=
  fun hd n q k => ∑ d, Q_ hd n q d * aK q k d

/-- Line 314: the bias is added to raw `Q·Kᵀ` before any scaling. -/
noncomputable def rel_prescale (ck T : ℕ) {nh N Tq Cq Ck dk : ℕ}
    (queries : Fin N → Fin Tq → Fin Cq → ℝ) (keys : Fin N → Fin Tq → Fin Ck → ℝ)
    (WQ : Fin Cq → Fin (nh * dk) → ℝ) (bQ : Fin (nh * dk) → ℝ)
    (WK : Fin Ck → Fin (nh * dk) → ℝ) (bK : Fin (nh * dk) → ℝ)
    (WK2 : Fin (2 * ck + 2) → Fin dk → ℝ) : Fin nh → Fin N → Fin Tq → Fin Tq → ℝ :=
  fun hd n q k =>
    raw_score (head_split (dense_relu queries WQ bQ)) (head_split (dense_relu keys WK bK)) hd n q k
      + rel_bias (head_split (dense_relu queries WQ bQ)) (rel_embed ck T WK2) hd n q k

/-- Line 317: `outputs /= K_.get_shape().as_list()[-1] ** 0.5`. -/
noncomputable def rel_scaled (ck T : ℕ) {nh N Tq Cq Ck dk : ℕ}
    (queries : Fin N → Fin Tq → Fin Cq → ℝ) (keys : Fin N → Fin Tq → Fin Ck → ℝ)
    (WQ : Fin Cq → Fin (nh * dk) → ℝ) (bQ : Fin (nh * dk) → ℝ)
    (WK : Fin Ck → Fin (nh * dk) → ℝ) (bK : Fin (nh * dk) → ℝ)
    (WK2 : Fin (2 * ck + 2) → Fin dk → ℝ) : Fin nh → Fin N → Fin Tq → Fin Tq → ℝ :=
  fun hd n q k => rel_prescale ck T queries keys WQ bQ WK bK WK2 hd n q k / Real.sqrt (dk : ℝ)

/-- Lines 320-337: key masking, optional causal masking, softmax — identical to
the plain multi-head block, applied to the bias-augmented scaled scores. -/
noncomputable def rel_alphas (ck T : ℕ) {nh N Tq Cq Ck dk : ℕ} (causality : Bool)
    (queries : Fin N → Fin Tq → Fin Cq → ℝ) (keys : Fin N → Fin Tq → Fin Ck → ℝ)
    (WQ : Fin Cq → Fin (nh * dk) → ℝ) (bQ : Fin (nh * dk) → ℝ)
    (WK : Fin Ck → Fin (nh * dk) → ℝ) (bK : Fin (nh * dk) → ℝ)
    (WK2 : Fin (2 * ck + 2) → Fin dk → ℝ) : Fin nh → Fin N → Fin Tq → Fin Tq → ℝ :=
  fun hd n q =>
    softmax (fun k =>
      let masked := if chan_sum keys n k = 0 then paddings
        else rel_scaled ck T queries keys WQ bQ WK bK WK2 hd n q k
      if causality = true ∧ (q : ℕ) < (k : ℕ) then paddings else masked)

/-- Lines 340-343: query masking, as in the plain block. -/
noncomputable def rel_weights (ck T : ℕ) {nh N Tq Cq Ck dk : ℕ} (causality : Bool)
    (queries : Fin N → Fin Tq → Fin Cq → ℝ) (keys : Fin N → Fin Tq → Fin Ck → ℝ)
    (WQ : Fin Cq → Fin (nh * dk) → ℝ) (bQ : Fin (nh * dk) → ℝ)
    (WK : Fin Ck → Fin (nh * dk) → ℝ) (bK : Fin (nh * dk) → ℝ)
    (WK2 : Fin (2 * ck + 2) → Fin dk → ℝ) : Fin nh → Fin N → Fin Tq → Fin Tq → ℝ :=
  fun hd n q k =>
    rel_alphas ck T causality queries keys WQ bQ WK bK WK2 hd n q k *
      (if chan_sum queries n q = 0 then 0 else 1)

/-- Lines 349-352: `outputs = tf.matmul(outputs, V_) + outputs_aV`, where
`V_ = head_split(dense_relu(keys, WV, bV))` (line 280 computes V from `keys`)
and `outputs_aV[hb, q, d] = sum_k outputs[hb, q, k] * aV[q, k, d]`. -/
noncomputable def rel_agg (ck T : ℕ) {nh N Tq Cq Ck dk : ℕ} (causality : Bool)
    (queries : Fin N → Fin Tq → Fin Cq → ℝ) (keys : Fin N → Fin Tq → Fin Ck → ℝ)
    (WQ : Fin Cq → Fin (nh * dk) → ℝ) (bQ : Fin (nh * dk) → ℝ)
    (WK : Fin Ck → Fin (nh * dk) → ℝ) (bK : Fin (nh * dk) → ℝ)
    (WK2 : Fin (2 * ck + 2) → Fin dk → ℝ)
    (WV : Fin Ck → Fin (nh * dk) → ℝ) (bV : Fin (nh * dk) → ℝ)
    (WV2 : Fin (2 * ck + 2) → Fin dk → ℝ) : Fin nh → Fin N → Fin Tq → Fin dk → ℝ :=
  fun hd n q d =>
    let V_ := head_split (dense_relu keys WV bV)
    (∑ k, rel_weights ck T causality queries keys WQ bQ WK bK WK2 hd n q k * V_ hd n k d)
      + ∑ k, rel_weights ck T causality queries keys WQ bQ WK bK WK2 hd n q k
          * rel_embed ck T WV2 q k d

/-! ### Helper lemmas -/

/-- Softmax weights over a nonempty axis sum to 1. -/
theorem softmax_sum_one {T : ℕ} (hT : 0 < T) (x : Fin T → ℝ) : ∑ k, softmax x k = 1 := by
  have : Nonempty (Fin T) := ⟨⟨0, hT⟩⟩
  have hpos : (0 : ℝ) < ∑ j, Real.exp (x j) :=
    Finset.sum_pos (fun j _ => Real.exp_pos (x j)) Finset.univ_nonempty
  simp only [softmax]
  rw [← Finset.sum_div]
  exact div_self (ne_of_gt hpos)

/-- Length of the base distance row. -/
theorem dist_base_length (ck T : ℕ) : (dist_base ck T).length = T := by
  simp [dist_base]

/-- Elementwise value of the base distance row. -/
theorem dist_base_getElem? (ck T j : ℕ) (hj : j < T) :
    (dist_base ck T)[j]? = some (if j < 2 * ck then j + 1 else 2 * ck + 1) := by
  simp [dist_base, List.getElem?_range hj]

/-- Elementwise closed form of the relative-distance table for valid
configurations (`2*clip_k ≤ seq_len`): writing `d = j - i` for the signed
key-minus-query distance, the bucket is `1` for `d < -clip_k`, `d + clip_k + 1`
for `-clip_k ≤ d < clip_k`, and `2*clip_k + 1` for `d ≥ clip_k`. -/
theorem dist_entry_closed (ck T i j : ℕ) (hT : 2 * ck ≤ T) (hi : i < T) (hj : j < T) :
    dist_entry ck T i j
      = if j + ck < i then 1 else if i + ck ≤ j then 2 * ck + 1 else j + ck + 1 - i := by
  unfold dist_entry dist_table
  simp only [List.getD_eq_getElem?_getD]
  rw [List.getElem?_map, List.getElem?_range hi]
  simp only [Option.map_some', Option.getD_some]
  rcases Nat.lt_trichotomy i ck with hik | hik | hik
  · have hn : ((i : ℤ) - ck) < 0 := by omega
    unfold shift
    rw [if_pos hn]
    have htn : (-(((i : ℤ) - ck))).toNat = ck - i := by omega
    rw [htn, List.getElem?_append, List.length_drop, dist_base_length]
    by_cases hj2 : j < T - (ck - i)
    · rw [if_pos hj2, List.getElem?_drop, dist_base_getElem? ck T (ck - i + j) (by omega)]
      simp only [Option.getD_some]
      split_ifs <;> omega
    · rw [if_neg hj2, List.getElem?_replicate, if_pos (by omega)]
      simp only [Option.getD_some]
      split_ifs <;> omega
  · have hn0 : ((i : ℤ) - ck) = 0 := by omega
    rw [hn0]
    unfold shift
    norm_num
    rw [dist_base_getElem? ck T j hj]
    simp only [Option.getD_some]
    split_ifs <;> omega
  · have hn : ¬ ((i : ℤ) - ck) < 0 := by omega
    have hn2 : (0 : ℤ) < (i : ℤ) - ck := by omega
    unfold shift
    rw [if_neg hn, if_pos hn2]
    have htn : (((i : ℤ) - ck)).toNat = i - ck := by omega
    rw [htn, dist_base_length, List.getElem?_append, List.length_replicate]
    by_cases hj2 : j < i - ck
    · rw [if_pos hj2, List.getElem?_replicate_of_lt hj2]
      simp only [Option.getD_some]
      split_ifs <;> omega
    · rw [if_neg hj2, List.getElem?_take_of_lt (show j - (i - ck) < T - (i - ck) by omega),
        dist_base_getElem? ck T (j - (i - ck)) (by omega)]
      simp only [Option.getD_some]
      split_ifs <;> omega

/-- A softmax weight is bounded by the ratio to any single term of the
denominator. -/
theorem softmax_le_exp_div {T : ℕ} (x : Fin T → ℝ) (i j : Fin T) :
    softmax x i ≤ Real.exp (x i) / Real.exp (x j) := by
  unfold softmax
  exact div_le_div_of_nonneg_left (Real.exp_pos (x i)).le (Real.exp_pos (x j))
    (Finset.single_le_sum (fun m _ => (Real.exp_pos (x m)).le) (Finset.mem_univ j))

/-- Numeric bound used for the masking claim: `exp (-14) < 1e-6`. -/
theorem exp_neg_fourteen_lt : Real.exp (-14) < 1e-6 := by
  have h2 : ((2.7182818283 : ℝ)) ^ (14 : ℕ) ≤ Real.exp 1 ^ (14 : ℕ) :=
    pow_le_pow_left₀ (by norm_num) (le_of_lt Real.exp_one_gt_d9) 14
  have h3 : (1000000 : ℝ) < (2.7182818283 : ℝ) ^ (14 : ℕ) := by norm_num
  have h4 : Real.exp 1 ^ (14 : ℕ) = Real.exp 14 := by
    rw [Real.exp_one_pow]; norm_num
  have h1 : (1000000 : ℝ) < Real.exp 14 := by linarith
  rw [Real.exp_neg, show (1e-6 : ℝ) = (1000000 : ℝ)⁻¹ by norm_num]
  exact inv_strictAnti₀ (by norm_num) h1

/-! ### Claim theorems -/

/-- C2 counterexample: a `multihead_attention` call whose only key position is
all-zero.  Key masking then replaces every score by the same constant, the
softmax row is uniform, and the all-zero key's post-softmax weight is `1`,
far above `1e-6`. -/
theorem mha_zero_key_weight_counterexample :
    (fun (_ : Fin 1) (_ : Fin 1) (_ : Fin 1) => (0 : ℝ)) 0 0 0 = 0
    ∧ (1e-6 : ℝ) < @mha_alphas 1 1 1 1 1 1 1 false (fun _ _ _ => 1) (fun _ _ _ => 0)
        (fun _ _ => 0) (fun _ => 0) (fun _ _ => 0) (fun _ => 0) 0 0 0 0 := by
  have h : @mha_alphas 1 1 1 1 1 1 1 false (fun _ _ _ => 1) (fun _ _ _ => 0)
      (fun _ _ => 0) (fun _ => 0) (fun _ _ => 0) (fun _ => 0) 0 0 0 0 = 1 := by
    unfold mha_alphas softmax mha_presoftmax chan_sum
    simp [Fin.sum_univ_one]
  exact ⟨rfl, by rw [h]; norm_num⟩

/-- C2 (amended): in `multihead_attention`, a key position whose input vector is
all-zero has its pre-softmax score replaced by the constant `paddings = -2^32+1`
(lines 203-208), and — provided the call is non-degenerate, i.e. some key
position's post-masking pre-softmax score is at least `paddings + 14` (any
surviving key of ordinary score magnitude) — the all-zero key's post-softmax
weight is at most `1e-6`, for every head and every query position. -/
theorem mha_zero_key_weight_le {nh N Tq Tk Cq Ck dk : ℕ} (causality : Bool)
    (queries : Fin N → Fin Tq → Fin Cq → ℝ) (keys : Fin N → Fin Tk → Fin Ck → ℝ)
    (WQ : Fin Cq → Fin (nh * dk) → ℝ) (bQ : Fin (nh * dk) → ℝ)
    (WK : Fin Ck → Fin (nh * dk) → ℝ) (bK : Fin (nh * dk) → ℝ)
    (hd : Fin nh) (n : Fin N) (q : Fin Tq) (i : Fin Tk)
    (hzero : ∀ c, keys n i c = 0) (j : Fin Tk)
    (hj : paddings + 14 ≤ mha_presoftmax causality queries keys WQ bQ WK bK hd n q j) :
    mha_alphas causality queries keys WQ bQ WK bK hd n q i ≤ 1e-6 := by
  have hmask : chan_sum keys n i = 0 := by
    unfold chan_sum
    exact Finset.sum_eq_zero (fun c _ => hzero c)
  have hscore : mha_presoftmax causality queries keys WQ bQ WK bK hd n q i = paddings := by
    unfold mha_presoftmax
    simp [hmask]
  calc mha_alphas causality queries keys WQ bQ WK bK hd n q i
      ≤ Real.exp (mha_presoftmax causality queries keys WQ bQ WK bK hd n q i)
          / Real.exp (mha_presoftmax causality queries keys WQ bQ WK bK hd n q j) :=
        softmax_le_exp_div _ i j
    _ = Real.exp (mha_presoftmax causality queries keys WQ bQ WK bK hd n q i
          - mha_presoftmax causality queries keys WQ bQ WK bK hd n q j) :=
        (Real.exp_sub _ _).symm
    _ ≤ Real.exp (-14) := by
        apply Real.exp_le_exp.mpr
        rw [hscore]
        linarith
    _ ≤ 1e-6 := le_of_lt exp_neg_fourteen_lt

/-- C2 witness: a concrete call with one nonzero key (score 0) and one all-zero
key; the all-zero key's weight is at most `1e-6`. -/
theorem mha_zero_key_weight_le_witness :
    @mha_alphas 1 1 1 2 1 1 1 false (fun _ _ _ => 1)
      (fun _ (k : Fin 2) _ => if k.1 = 0 then 1 else 0)
      (fun _ _ => 0) (fun _ => 0) (fun _ _ => 0) (fun _ => 0) 0 0 0 1 ≤ 1e-6 :=
  mha_zero_key_weight_le false (fun _ _ _ => 1)
    (fun _ (k : Fin 2) _ => if k.1 = 0 then 1 else 0)
    (fun _ _ => 0) (fun _ => 0) (fun _ _ => 0) (fun _ => 0) 0 0 0 1
    (fun c => by norm_num) 0
    (by
      unfold mha_presoftmax chan_sum
      simp [Fin.sum_univ_one, dense_relu, relu, head_split, paddings]
      norm_num)

/-- C3: for a valid configuration (`2*clip_k ≤ seq_len`), every entry of the
relative-distance table is a bucket in `[0, 2*clip_k + 1]`, and buckets
saturate beyond `clip_k` in either direction: every pair with
`j - i > clip_k` gets the constant bucket `2*clip_k + 1` and every pair with
`i - j > clip_k` gets the constant bucket `1`. -/
theorem dist_entry_range_and_saturation (ck T i j : ℕ)
    (hT : 2 * ck ≤ T) (hi : i < T) (hj : j < T) :
    dist_entry ck T i j ≤ 2 * ck + 1
    ∧ (i + ck < j → dist_entry ck T i j = 2 * ck + 1)
    ∧ (j + ck < i → dist_entry ck T i j = 1) := by
  rw [dist_entry_closed ck T i j hT hi hj]
  refine ⟨by split_ifs <;> omega, fun h2 => by split_ifs <;> omega,
    fun h2 => by split_ifs <;> omega⟩

/-- C3 witness: a concrete valid configuration. -/
theorem dist_entry_range_and_saturation_witness :
    dist_entry 1 4 0 3 ≤ 2 * 1 + 1
    ∧ (0 + 1 < 3 → dist_entry 1 4 0 3 = 2 * 1 + 1)
    ∧ (3 + 1 < 0 → dist_entry 1 4 0 3 = 1) :=
  dist_entry_range_and_saturation 1 4 0 3 (by norm_num) (by norm_num) (by norm_num)

/-- C6: the per-call table is the elementwise restriction of the precomputed
(seq_len, seq_len) table to its first `q` rows and columns — the slice
coincides with the configuration table wherever both are defined, so nothing
is rebuilt.  (The code slices both axes by the query length; every well-formed
call is self-attention, so this is the query-by-key region in use.) -/
theorem dist_sliced_entry_eq (ck T q i j : ℕ) (_hq : q ≤ T) (hi : i < q) (hj : j < q) :
    dist_sliced_entry ck T q i j = dist_entry ck T i j := by
  unfold dist_sliced_entry dist_sliced dist_entry
  simp only [List.getD_eq_getElem?_getD]
  rw [List.getElem?_map, List.getElem?_take_of_lt hi]
  cases htab : (dist_table ck T)[i]? with
  | none => simp
  | some row =>
    simp only [Option.map_some', Option.getD_some]
    rw [List.getElem?_take_of_lt hj]

/-- C6 witness: a concrete slice. -/
theorem dist_sliced_entry_eq_witness : dist_sliced_entry 1 4 2 1 0 = dist_entry 1 4 1 0 :=
  dist_sliced_entry_eq 1 4 2 1 0 (by norm_num) (by norm_num) (by norm_num)

/-- C7: on every valid configuration the zero-distance (diagonal) bucket is the
fixed constant `clip_k + 1`, independent of `seq_len` and of the diagonal
position, and buckets stop changing once the distance exceeds `clip_k`
(constant `2*clip_k + 1` above the diagonal band, constant `1` below it). -/
theorem dist_entry_diagonal_and_clip (ck T i : ℕ) (hT : 2 * ck ≤ T) (hi : i < T) :
    dist_entry ck T i i = ck + 1
    ∧ ∀ j, j < T → (i + ck < j → dist_entry ck T i j = 2 * ck + 1)
        ∧ (j + ck < i → dist_entry ck T i j = 1) := by
  constructor
  · rw [dist_entry_closed ck T i i hT hi hi]
    split_ifs <;> omega
  · intro j hj
    rw [dist_entry_closed ck T i j hT hi hj]
    exact ⟨fun h => by split_ifs <;> omega, fun h => by split_ifs <;> omega⟩

/-- C7 witness: a concrete valid configuration and diagonal position. -/
theorem dist_entry_diagonal_and_clip_witness :
    dist_entry 1 5 2 2 = 1 + 1
    ∧ ∀ j, j < 5 → (2 + 1 < j → dist_entry 1 5 2 j = 2 * 1 + 1)
        ∧ (j + 1 < 2 → dist_entry 1 5 2 j = 1) :=
  dist_entry_diagonal_and_clip 1 5 2 (by norm_num) (by norm_num)

/-- C1 counterexample: in `entity_attention` on a (1, 1, 1) input with zero
weights, the alphas for entity column 0 sum to 1/2 (not 1) over the time axis,
because the softmax runs over the 2 entity columns, not over time. -/
theorem entity_alphas_time_sum_ne_one :
    ∑ t, entity_alphas (fun (_ : Fin 1) (_ : Fin 1) (_ : Fin 1) => (0 : ℝ))
      (fun (_ : Fin 1) (_ : Fin 1) => 0) (fun _ => 0) (fun _ => 0) (fun _ => 0) 0 t 0 ≠ 1 := by
  have h : ∑ t, entity_alphas (fun (_ : Fin 1) (_ : Fin 1) (_ : Fin 1) => (0 : ℝ))
      (fun (_ : Fin 1) (_ : Fin 1) => 0) (fun _ => 0) (fun _ => 0) (fun _ => 0) 0 t 0 = 1 / 2 := by
    simp [entity_alphas, entity_ve, entity_e, gather_nd, entity_idx, dense_relu, relu,
      softmax, Fin.sum_univ_one, Fin.sum_univ_two, Real.exp_zero]
  rw [h]; norm_num

/-- C1 (amended): in `entity_attention` the raw (batch, time, 2) scores are
softmaxed over the last axis — the 2 entity columns jointly — so for every
batch element and every timestep the two column weights sum to 1. -/
theorem entity_alphas_column_sum_one {B T C A : ℕ} (inputs : Fin B → Fin T → Fin C → ℝ)
    (W : Fin C → Fin A → ℝ) (bW : Fin A → ℝ) (e1 e2 : Fin B → Fin T)
    (b : Fin B) (t : Fin T) :
    ∑ col, entity_alphas inputs W bW e1 e2 b t col = 1 :=
  softmax_sum_one (by norm_num) _

/-- C4: `layer_norm` takes moments over the last axis only and returns
`gamma * (x - mean) / sqrt(variance + epsilon) + beta`; with `gamma` at its
ones initialization and `beta` at its zeros initialization this is exactly the
normalized tensor.  The output has the input's (rank-3) shape by construction. -/
theorem layer_norm_formula {N T C : ℕ} (gamma beta : Fin C → ℝ) (epsilon : ℝ)
    (x : Fin N → Fin T → Fin C → ℝ) (n : Fin N) (t : Fin T) (c : Fin C) :
    layer_norm gamma beta epsilon x n t c
      = gamma c * (x n t c - moments_mean (x n t)) / Real.sqrt (moments_var (x n t) + epsilon)
        + beta c
    ∧ layer_norm (fun _ => 1) (fun _ => 0) epsilon x n t c
      = (x n t c - moments_mean (x n t)) / Real.sqrt (moments_var (x n t) + epsilon) := by
  have h : (moments_var (x n t) + epsilon) ^ ((0.5 : ℝ))
      = Real.sqrt (moments_var (x n t) + epsilon) := by
    rw [Real.sqrt_eq_rpow]; norm_num
  constructor
  · unfold layer_norm
    rw [h, mul_div_assoc]
  · unfold layer_norm
    rw [h]
    simp

/-- C5: in additive attention (variant A) the alphas sum to 1 over the time
axis for every batch element, and the pooled output is the alphas-weighted time
sum of the original (unprojected) input vectors. -/
theorem attention_alphas_sum_one_and_output {B T D A : ℕ} (hT : 0 < T)
    (inputs : Fin B → Fin T → Fin D → ℝ) (w_omega : Fin D → Fin A → ℝ)
    (b_omega u_omega : Fin A → ℝ) (b : Fin B) :
    (∑ t, attention_alphas inputs w_omega b_omega u_omega b t = 1) ∧
      ∀ d, attention_output inputs w_omega b_omega u_omega b d
        = ∑ t, attention_alphas inputs w_omega b_omega u_omega b t * inputs b t d := by
  refine ⟨softmax_sum_one hT _, fun d => ?_⟩
  unfold attention_output
  exact Finset.sum_congr rfl (fun t _ => mul_comm _ _)

/-- C5 witness: the theorem instantiated on a concrete (1, 1, 1) input. -/
theorem attention_alphas_sum_one_and_output_witness :
    (∑ t, attention_alphas (fun (_ : Fin 1) (_ : Fin 1) (_ : Fin 1) => (0 : ℝ))
        (fun (_ : Fin 1) (_ : Fin 1) => 0) (fun _ => 0) (fun _ => 0) 0 t = 1) ∧
      ∀ d, attention_output (fun (_ : Fin 1) (_ : Fin 1) (_ : Fin 1) => (0 : ℝ))
          (fun (_ : Fin 1) (_ : Fin 1) => 0) (fun _ => 0) (fun _ => 0) 0 d
        = ∑ t, attention_alphas (fun (_ : Fin 1) (_ : Fin 1) (_ : Fin 1) => (0 : ℝ))
            (fun (_ : Fin 1) (_ : Fin 1) => 0) (fun _ => 0) (fun _ => 0) 0 t * 0 :=
  attention_alphas_sum_one_and_output (by norm_num) _ _ _ _ 0

/-- C8: in `entity_attention`, the `gather_nd` of the projected sequence at the
`(b, e1[b])` / `(b, e2[b])` index pairs returns exactly the projected vectors at
timesteps `e1[b]` and `e2[b]` of batch element `b` — an exact-index gather. -/
theorem entity_gather_exact {B T C A : ℕ} (inputs : Fin B → Fin T → Fin C → ℝ)
    (W : Fin C → Fin A → ℝ) (bW : Fin A → ℝ) (e1 e2 : Fin B → Fin T)
    (b : Fin B) (a : Fin A) :
    gather_nd (dense_relu inputs W bW) (entity_idx e1) b a
        = dense_relu inputs W bW b (e1 b) a
    ∧ gather_nd (dense_relu inputs W bW) (entity_idx e2) b a
        = dense_relu inputs W bW b (e2 b) a :=
  ⟨rfl, rfl⟩

/-- C9: in both multi-head blocks the aggregated content is the head-split
dense-ReLU projection of the `keys` argument itself (there is no separate
values input): the weighted sum contracts the attention weights against
`head_split (dense_relu keys WV bV)` (plus, in the relative block, the
position-bias term, which is also independent of any third tensor). -/
theorem mha_values_projected_from_keys {nh N Tq Tk Cq Ck dk ck T : ℕ} (causality : Bool)
    (queries : Fin N → Fin Tq → Fin Cq → ℝ) (keys : Fin N → Fin Tk → Fin Ck → ℝ)
    (keysr : Fin N → Fin Tq → Fin Ck → ℝ)
    (WQ : Fin Cq → Fin (nh * dk) → ℝ) (bQ : Fin (nh * dk) → ℝ)
    (WK : Fin Ck → Fin (nh * dk) → ℝ) (bK : Fin (nh * dk) → ℝ)
    (WK2 : Fin (2 * ck + 2) → Fin dk → ℝ)
    (WV : Fin Ck → Fin (nh * dk) → ℝ) (bV : Fin (nh * dk) → ℝ)
    (WV2 : Fin (2 * ck + 2) → Fin dk → ℝ) :
    (∀ (hd : Fin nh) (n : Fin N) (q : Fin Tq) (d : Fin dk),
      mha_agg causality queries keys WQ bQ WK bK WV bV hd n q d
        = ∑ k, mha_weights causality queries keys WQ bQ WK bK hd n q k
            * head_split (dense_relu keys WV bV) hd n k d)
    ∧ ∀ (hd : Fin nh) (n : Fin N) (q : Fin Tq) (d : Fin dk),
      rel_agg ck T causality queries keysr WQ bQ WK bK WK2 WV bV WV2 hd n q d
        = (∑ k, rel_weights ck T causality queries keysr WQ bQ WK bK WK2 hd n q k
            * head_split (dense_relu keysr WV bV) hd n k d)
          + ∑ k, rel_weights ck T causality queries keysr WQ bQ WK bK WK2 hd n q k
              * rel_embed ck T WV2 q k d :=
  ⟨fun _ _ _ _ => rfl, fun _ _ _ _ => rfl⟩

/-- C10: in `relative_multihead_attention` the key-bias term is added to the
raw `Q·Kᵀ` scores before the division by `sqrt(head_dim)`, so the bias
contribution to the pre-softmax scores is also scaled by `1/sqrt(head_dim)`;
the bias is computed from `rel_embed ck T WK2`, a single table with no head or
batch index, shared by all heads and batch elements. -/
theorem rel_bias_scaled_with_scores (ck T : ℕ) {nh N Tq Cq Ck dk : ℕ}
    (queries : Fin N → Fin Tq → Fin Cq → ℝ) (keys : Fin N → Fin Tq → Fin Ck → ℝ)
    (WQ : Fin Cq → Fin (nh * dk) → ℝ) (bQ : Fin (nh * dk) → ℝ)
    (WK : Fin Ck → Fin (nh * dk) → ℝ) (bK : Fin (nh * dk) → ℝ)
    (WK2 : Fin (2 * ck + 2) → Fin dk → ℝ) (hd : Fin nh) (n : Fin N) (q k : Fin Tq) :
    rel_scaled ck T queries keys WQ bQ WK bK WK2 hd n q k
      = raw_score (head_split (dense_relu queries WQ bQ)) (head_split (dense_relu keys WK bK))
            hd n q k / Real.sqrt (dk : ℝ)
        + rel_bias (head_split (dense_relu queries WQ bQ)) (rel_embed ck T WK2) hd n q k
            / Real.sqrt (dk : ℝ) := by
  unfold rel_scaled rel_prescale
  rw [add_div]

end EARC
